import Mathlib

/-!
Verification of the encrypted-signal exchange core of `react-videocall`:
the Signal Codec (`src/lib/encryption.ts`) and the Peer Session Wrapper
(`createPeer` / `handlePeerSignal`).

The JavaScript payloads (`any` values fed to `JSON.stringify`) are embedded
as the inductive `JsValue`; serialized JSON text is embedded at token level
(`List Token`).  `JSON.stringify` / `JSON.parse` are library functions not
part of this repository, so they are modelled here as an executable
printer/parser pair over that token alphabet, faithful to JSON's shape
(numbers restricted to integers, which covers every payload this program
serializes).  CryptoJS's AES is likewise external; it is modelled
symbolically from the spec's codec contract (§4.1).
-/

/-- Tokens of serialized JSON text.  A `List Token` embeds a JSON string. -/
inductive Token where
  | lbrace | rbrace | lbrack | rbrack | colon | comma
  | tnull
  | tbool (b : Bool)
  | tnum (n : Int)
  | tstr (s : String)
deriving DecidableEq, Repr

/-- JavaScript values handed to the codec.  `vcyclic` marks a value that
contains a circular reference, the kind of payload `JSON.stringify`
rejects with a `TypeError` (spec §4.1, §7 serialization error). -/
inductive JsValue where
  | vnull
  | vbool (b : Bool)
  | vnum (n : Int)
  | vstr (s : String)
  | varr (xs : List JsValue)
  | vobj (fs : List (String × JsValue))
  | vcyclic
deriving Repr

mutual

/-- Embedding of `JSON.stringify`: serializes a value to JSON text (token
level), failing on values containing circular references. -/
def stringifyTokens : JsValue → Except String (List Token)
  | .vnull => .ok [.tnull]
  | .vbool b => .ok [.tbool b]
  | .vnum n => .ok [.tnum n]
  | .vstr s => .ok [.tstr s]
  | .varr xs => (stringifyArr xs).map (fun ts => .lbrack :: ts)
  | .vobj fs => (stringifyObj fs).map (fun ts => .lbrace :: ts)
  | .vcyclic => .error "Converting circular structure to JSON"

/-- Serializes the elements of an array, from the opening bracket on
(the bracket itself is emitted by `stringifyTokens`). -/
def stringifyArr : List JsValue → Except String (List Token)
  | [] => .ok [.rbrack]
  | v :: vs => do
    let ts ← stringifyTokens v
    let rest ← stringifyArrRest vs
    .ok (ts ++ rest)

/-- Serializes the remaining elements of an array after the first,
each preceded by a comma, ending with the closing bracket. -/
def stringifyArrRest : List JsValue → Except String (List Token)
  | [] => .ok [.rbrack]
  | v :: vs => do
    let ts ← stringifyTokens v
    let rest ← stringifyArrRest vs
    .ok (.comma :: (ts ++ rest))

/-- Serializes the fields of an object, from the opening brace on. -/
def stringifyObj : List (String × JsValue) → Except String (List Token)
  | [] => .ok [.rbrace]
  | (k, v) :: fs => do
    let ts ← stringifyTokens v
    let rest ← stringifyObjRest fs
    .ok (.tstr k :: .colon :: (ts ++ rest))

/-- Serializes the remaining fields of an object after the first. -/
def stringifyObjRest : List (String × JsValue) → Except String (List Token)
  | [] => .ok [.rbrace]
  | (k, v) :: fs => do
    let ts ← stringifyTokens v
    let rest ← stringifyObjRest fs
    .ok (.comma :: .tstr k :: .colon :: (ts ++ rest))

end

mutual

/-- A value is JSON-serializable iff no circular reference occurs in it. -/
def serializable : JsValue → Bool
  | .vnull | .vbool _ | .vnum _ | .vstr _ => true
  | .varr xs => serializableList xs
  | .vobj fs => serializableFields fs
  | .vcyclic => false

/-- Every element of the list is serializable. -/
def serializableList : List JsValue → Bool
  | [] => true
  | v :: vs => serializable v && serializableList vs

/-- Every field value of the list is serializable. -/
def serializableFields : List (String × JsValue) → Bool
  | [] => true
  | (_, v) :: fs => serializable v && serializableFields fs

end

mutual

/-- Embedding of `JSON.parse` (one value): consumes one JSON value from the
front of the token stream, returning it with the unconsumed remainder.
The `Nat` argument is recursion fuel; `jsonParse` supplies enough for any
input it is given. -/
def parseValue : Nat → List Token → Except String (JsValue × List Token)
  | 0, _ => .error "JSON nesting too deep"
  | _ + 1, [] => .error "Unexpected end of JSON input"
  | _ + 1, .tnull :: rest => .ok (.vnull, rest)
  | _ + 1, .tbool b :: rest => .ok (.vbool b, rest)
  | _ + 1, .tnum n :: rest => .ok (.vnum n, rest)
  | _ + 1, .tstr s :: rest => .ok (.vstr s, rest)
  | f + 1, .lbrack :: rest => (parseArrItems f rest).map (fun p => (.varr p.1, p.2))
  | f + 1, .lbrace :: rest => (parseObjFields f rest).map (fun p => (.vobj p.1, p.2))
  | _ + 1, _ => .error "Unexpected token in JSON"

/-- Parses the items of an array, positioned just after the opening bracket:
an immediate closing bracket gives the empty array, anything else must be a
first value followed by the remaining comma-separated items. -/
def parseArrItems : Nat → List Token → Except String (List JsValue × List Token)
  | 0, _ => .error "JSON nesting too deep"
  | f + 1, ts =>
    if ts.head? = some .rbrack then .ok ([], ts.tail)
    else do
      let (v, r) ← parseValue f ts
      let (vs, r2) ← parseArrRest f r
      .ok (v :: vs, r2)

/-- Parses the items of an array after the first, each preceded by a comma. -/
def parseArrRest : Nat → List Token → Except String (List JsValue × List Token)
  | 0, _ => .error "JSON nesting too deep"
  | _ + 1, .rbrack :: rest => .ok ([], rest)
  | f + 1, .comma :: ts => do
    let (v, r) ← parseValue f ts
    let (vs, r2) ← parseArrRest f r
    .ok (v :: vs, r2)
  | _ + 1, _ => .error "Expected comma or closing bracket in JSON array"

/-- Parses the fields of an object, positioned just after the opening brace. -/
def parseObjFields : Nat → List Token → Except String (List (String × JsValue) × List Token)
  | 0, _ => .error "JSON nesting too deep"
  | _ + 1, .rbrace :: rest => .ok ([], rest)
  | f + 1, .tstr k :: .colon :: ts => do
    let (v, r) ← parseValue f ts
    let (fs, r2) ← parseObjRest f r
    .ok ((k, v) :: fs, r2)
  | _ + 1, _ => .error "Expected string key in JSON object"

/-- Parses the fields of an object after the first, each preceded by a comma. -/
def parseObjRest : Nat → List Token → Except String (List (String × JsValue) × List Token)
  | 0, _ => .error "JSON nesting too deep"
  | _ + 1, .rbrace :: rest => .ok ([], rest)
  | f + 1, .comma :: .tstr k :: .colon :: ts => do
    let (v, r) ← parseValue f ts
    let (fs, r2) ← parseObjRest f r
    .ok ((k, v) :: fs, r2)
  | _ + 1, _ => .error "Expected comma or closing brace in JSON object"

end

/-- Embedding of `JSON.parse` on a whole JSON text: parses one value and
requires the entire input to be consumed. -/
def jsonParse (ts : List Token) : Except String JsValue :=
  match parseValue (ts.length + 1) ts with
  | .error e => .error e
  | .ok (v, []) => .ok v
  | .ok (_, _ :: _) => .error "Unexpected token after JSON value"

/-- Ciphertext produced by the symbolic AES model: the output blob of
`CryptoJS.AES.encrypt(plaintext, key).toString()`.  The random salt that
CryptoJS bakes into the output (making encryption non-deterministic per
call) is carried explicitly; the plaintext and key are carried symbolically,
as in a standard symbolic (Dolev-Yao) cipher model. -/
structure CipherText where
  key : String
  salt : Nat
  text : List Token
deriving DecidableEq, Repr

/-- Strings that travel through the wrapper's callbacks: either plain
(unencrypted) JSON text or an AES blob.  The two are distinguishable —
a Base64 AES blob is never the raw serialized signal — which is exactly
the spec's callback-only-encrypted guarantee. -/
inductive WireText where
  | plain (text : List Token)
  | cipher (c : CipherText)
deriving DecidableEq, Repr

/-- Modelled from the spec (§4.1 encode): `CryptoJS.AES.encrypt(plain, key)
.toString()` — symmetric encryption of serialized text under `key`, with a
fresh `salt` baked into the output; never fails. -/
def aesEncrypt (key : String) (salt : Nat) (plaintext : List Token) : WireText :=
  .cipher ⟨key, salt, plaintext⟩

/-- Modelled from the spec (§4.1 decode): `CryptoJS.AES.decrypt(w, key)
.toString(CryptoJS.enc.Utf8)` — recovers the plaintext exactly when `key`
matches the encryption key; a mismatched key or a non-ciphertext input
yields bytes that fail UTF-8 decoding, surfaced as a decode error. -/
def aesDecrypt (key : String) (w : WireText) : Except String (List Token) :=
  match w with
  | .plain _ => .error "Malformed UTF-8 data"
  | .cipher c => if c.key = key then .ok c.text else .error "Malformed UTF-8 data"

/-- Embedding of `SECRET_KEY` (`src/lib/encryption.ts` line 3):
`import.meta.env.VITE_ENCRYPTION_KEY || 'default-secure-key-123'`.
The environment value is `none` when `VITE_ENCRYPTION_KEY` is unset;
JavaScript `||` also falls back when the value is the (falsy) empty
string. -/
def SECRET_KEY (env : Option String) : String :=
  match env with
  | none => "default-secure-key-123"
  | some s => if s = "" then "default-secure-key-123" else s

/-- Core of `encryptData` with the key explicit:
`CryptoJS.AES.encrypt(JSON.stringify(data), key).toString()`. -/
def encryptWith (key : String) (salt : Nat) (data : JsValue) : Except String WireText :=
  (stringifyTokens data).map (aesEncrypt key salt)

/-- Core of `decryptData` with the key explicit:
`JSON.parse(CryptoJS.AES.decrypt(ciphertext, key).toString(CryptoJS.enc.Utf8))`. -/
def decryptWith (key : String) (w : WireText) : Except String JsValue :=
  (aesDecrypt key w).bind jsonParse

/-- Embedding of `encryptData` (`src/lib/encryption.ts` lines 5–7): uses the
process-wide `SECRET_KEY`.  `env` is the process environment, `salt` the
fresh randomness of this call. -/
def encryptData (env : Option String) (salt : Nat) (data : JsValue) : Except String WireText :=
  encryptWith (SECRET_KEY env) salt data

/-- Embedding of `decryptData` (`src/lib/encryption.ts` lines 9–12): uses the
process-wide `SECRET_KEY`. -/
def decryptData (env : Option String) (w : WireText) : Except String JsValue :=
  decryptWith (SECRET_KEY env) w

/-- Opaque handle for a media stream (spec §3: streams are produced and
consumed outside this core; only identity matters here). -/
structure MediaStream where
  id : Nat
deriving DecidableEq, Repr

/-- Connection phase of the underlying peer-connection primitive
(spec §4.2 state machine, collapsed to what the non-trickle handshake
distinguishes). -/
inductive SPhase where
  | signaling
  | connected
deriving DecidableEq, Repr

/-- State of the underlying `SimplePeer` connection object.  Modelled from
the spec: the wrapper owns one such object per session, parameterized by
role, trickle mode and the attached local stream. -/
structure SPeer where
  initiator : Bool
  trickle : Bool
  localStream : MediaStream
  phase : SPhase
deriving DecidableEq, Repr

/-- Events the underlying connection emits to its registered listeners
(`signal`, `stream`, `error`). -/
inductive PeerEvent where
  | signal (data : JsValue)
  | stream (s : MediaStream)
  | error (e : String)
deriving Repr

/-- Batched (non-trickle) offer signal payload generated by an initiator;
carries the negotiation data, here symbolically the sender's stream. -/
def offerSignal (s : MediaStream) : JsValue :=
  .vobj [("type", .vstr "offer"), ("stream", .vnum (s.id : Int))]

/-- Batched answer signal payload generated by a responder. -/
def answerSignal (s : MediaStream) : JsValue :=
  .vobj [("type", .vstr "answer"), ("stream", .vnum (s.id : Int))]

/-- Recognizes a signal payload as an offer (`true`) or answer (`false`)
and extracts the sender's stream; `none` for payloads that are not valid
signals for the connection. -/
def decodeSignal : JsValue → Option (Bool × MediaStream)
  | .vobj [("type", .vstr t), ("stream", .vnum n)] =>
    if t = "offer" then some (true, ⟨n.toNat⟩)
    else if t = "answer" then some (false, ⟨n.toNat⟩)
    else none
  | _ => none

/-- Modelled from the spec: construction of the underlying connection
(`new SimplePeer({initiator, trickle, stream})`).  With trickle disabled,
an initiator immediately produces its single batched offer signal; a
responder produces no signal until a remote signal is applied
(spec §8, initiator/responder asymmetry). -/
def spNew (initiator trickle : Bool) (stream : MediaStream) : SPeer × List PeerEvent :=
  (⟨initiator, trickle, stream, .signaling⟩,
   if initiator then [.signal (offerSignal stream)] else [])

/-- Modelled from the spec: `peer.signal(data)` — applying a remote signal
to the underlying connection.  A responder answering an offer emits its
batched answer and, the handshake now complete on its side, its single
`stream` event; an initiator absorbing an answer likewise completes and
emits its single `stream` event.  A payload that is not a valid signal for
the current state surfaces as a connection `error` event (spec §4.2, §7). -/
def spSignal (p : SPeer) (d : JsValue) : SPeer × List PeerEvent :=
  match p.phase with
  | .connected => (p, [.error "cannot signal after connection is established"])
  | .signaling =>
    match decodeSignal d with
    | none => (p, [.error "invalid signal payload"])
    | some (isOffer, remote) =>
      if p.initiator then
        if isOffer then (p, [.error "unexpected offer received by initiator"])
        else ({ p with phase := .connected }, [.stream remote])
      else
        if isOffer then
          ({ p with phase := .connected },
           [.signal (answerSignal p.localStream), .stream remote])
        else (p, [.error "unexpected answer received by responder"])

/-- Invocation of one of the caller-supplied callbacks of `PeerConfig`.
The wrapper's higher-order callbacks are reified: each constructor records
which callback was invoked and with what argument. -/
inductive CallbackCall where
  | onSignal (encryptedSignal : WireText)
  | onStream (stream : MediaStream)
  | onError (e : String)
deriving DecidableEq, Repr

/-- Configuration accepted by `createPeer` (the `PeerConfig` interface,
data fields only; the three callbacks are reified by `CallbackCall`).
Note the interface offers no `trickle` field. -/
structure PeerConfig where
  initiator : Bool
  stream : MediaStream
deriving DecidableEq, Repr

/-- Embedding of the event handlers `createPeer` registers: a `signal`
event runs `onSignal(encryptData(data))`; `stream` and `error` events are
passed through to `onStream` / `onError` unchanged. -/
def dispatchEvent (key : String) (salt : Nat) : PeerEvent → Except String CallbackCall
  | .signal d => (encryptWith key salt d).map .onSignal
  | .stream s => .ok (.onStream s)
  | .error e => .ok (.onError e)

/-- Dispatches a batch of connection events through the registered
handlers, in order. -/
def dispatchEvents (key : String) (salt : Nat) : List PeerEvent →
    Except String (List CallbackCall)
  | [] => .ok []
  | ev :: evs => do
    let c ← dispatchEvent key salt ev
    let cs ← dispatchEvents key salt evs
    .ok (c :: cs)

/-- Embedding of `createPeer` (lines 12–34 of the peer module): constructs
the underlying connection with `{initiator, trickle: false, stream}`,
registers the three handlers, and returns the connection object.  The
construction-time events are dispatched through the handlers; the
resulting callback invocations are returned alongside the peer. -/
def createPeer (env : Option String) (salt : Nat) (cfg : PeerConfig) :
    SPeer × Except String (List CallbackCall) :=
  let r := spNew cfg.initiator false cfg.stream
  (r.1, dispatchEvents (SECRET_KEY env) salt r.2)

/-- Embedding of `handlePeerSignal` (lines 36–42 of the peer module):
`const signal = decryptData(encryptedSignal); peer.signal(signal)`.
A decode failure is thrown to the caller before the connection is touched;
otherwise the decoded signal is applied and the resulting connection
events are dispatched through the handlers registered by `createPeer`. -/
def handlePeerSignal (env : Option String) (salt : Nat) (peer : SPeer)
    (encryptedSignal : WireText) : Except String (SPeer × List CallbackCall) := do
  let signal ← decryptData env encryptedSignal
  let r := spSignal peer signal
  let calls ← dispatchEvents (SECRET_KEY env) salt r.2
  .ok (r.1, calls)

/-- One step of a session run: feed one inbound wire string to
`handlePeerSignal`, accumulating the callback invocations it causes. -/
def sessionStep (env : Option String) (salt : Nat)
    (st : SPeer × List CallbackCall) (w : WireText) :
    Except String (SPeer × List CallbackCall) := do
  let r ← handlePeerSignal env salt st.1 w
  .ok (r.1, st.2 ++ r.2)

/-- A whole session run: `createPeer` followed by `handlePeerSignal` on
each inbound wire string in order, collecting every callback invocation
the session makes. -/
def runSession (env : Option String) (salt : Nat) (cfg : PeerConfig)
    (incoming : List WireText) : Except String (SPeer × List CallbackCall) := do
  let init := createPeer env salt cfg
  let initCalls ← init.2
  incoming.foldlM (sessionStep env salt) (init.1, initCalls)

/-- Number of `onSignal` invocations in a list of callback calls. -/
def countOnSignal (calls : List CallbackCall) : Nat :=
  calls.countP (fun c => match c with | .onSignal _ => true | _ => false)

/-- Number of `onStream` invocations in a list of callback calls. -/
def countOnStream (calls : List CallbackCall) : Nat :=
  calls.countP (fun c => match c with | .onStream _ => true | _ => false)

/-- Number of `onError` invocations in a list of callback calls. -/
def countOnError (calls : List CallbackCall) : Nat :=
  calls.countP (fun c => match c with | .onError _ => true | _ => false)

/-- Tokens that can begin a serialized JSON value. -/
def isValueStart : Token → Bool
  | .tnull | .tbool _ | .tnum _ | .tstr _ | .lbrack | .lbrace => true
  | _ => false

/-- Serialized JSON text is nonempty and begins with a value-start token. -/
theorem stringifyTokens_head (v : JsValue) (ts : List Token)
    (h : stringifyTokens v = .ok ts) :
    ∃ t ts2, ts = t :: ts2 ∧ isValueStart t = true := by
  cases v with
  | vnull => simp [stringifyTokens] at h; exact ⟨.tnull, [], h.symm, rfl⟩
  | vbool b => simp [stringifyTokens] at h; exact ⟨.tbool b, [], h.symm, rfl⟩
  | vnum n => simp [stringifyTokens] at h; exact ⟨.tnum n, [], h.symm, rfl⟩
  | vstr s => simp [stringifyTokens] at h; exact ⟨.tstr s, [], h.symm, rfl⟩
  | varr xs =>
    cases h1 : stringifyArr xs with
    | error e => simp [stringifyTokens, h1, Except.map] at h
    | ok ts0 =>
      simp [stringifyTokens, h1, Except.map] at h
      exact ⟨.lbrack, ts0, h.symm, rfl⟩
  | vobj fs =>
    cases h1 : stringifyObj fs with
    | error e => simp [stringifyTokens, h1, Except.map] at h
    | ok ts0 =>
      simp [stringifyTokens, h1, Except.map] at h
      exact ⟨.lbrace, ts0, h.symm, rfl⟩
  | vcyclic => simp [stringifyTokens] at h

/-- Text serialized by `stringifyArrRest` is nonempty (it at least closes
the array). -/
theorem stringifyArrRest_length_pos (xs : List JsValue) (ts : List Token)
    (h : stringifyArrRest xs = .ok ts) : 1 ≤ ts.length := by
  cases xs with
  | nil => simp [stringifyArrRest] at h; simp [← h]
  | cons v vs =>
    cases h1 : stringifyTokens v with
    | error e => simp [stringifyArrRest, h1, bind, Except.bind] at h
    | ok ts1 =>
      cases h2 : stringifyArrRest vs with
      | error e => simp [stringifyArrRest, h1, h2, bind, Except.bind] at h
      | ok ts2 =>
        simp [stringifyArrRest, h1, h2, bind, Except.bind] at h
        simp [← h]

/-- Text serialized by `stringifyObjRest` is nonempty (it at least closes
the object). -/
theorem stringifyObjRest_length_pos (fs : List (String × JsValue)) (ts : List Token)
    (h : stringifyObjRest fs = .ok ts) : 1 ≤ ts.length := by
  cases fs with
  | nil => simp [stringifyObjRest] at h; simp [← h]
  | cons f fs2 =>
    obtain ⟨k, v⟩ := f
    cases h1 : stringifyTokens v with
    | error e => simp [stringifyObjRest, h1, bind, Except.bind] at h
    | ok ts1 =>
      cases h2 : stringifyObjRest fs2 with
      | error e => simp [stringifyObjRest, h1, h2, bind, Except.bind] at h
      | ok ts2 =>
        simp [stringifyObjRest, h1, h2, bind, Except.bind] at h
        simp [← h]

/-- Reduction of `parseArrItems` at a list that starts a value: the
empty-array lookahead does not fire, so the first item and the remaining
items are parsed. -/
theorem parseArrItems_cons (f : Nat) (t : Token) (ts : List Token)
    (ht : isValueStart t = true)
    (v : JsValue) (r : List Token) (h1 : parseValue f (t :: ts) = .ok (v, r))
    (vs : List JsValue) (r2 : List Token) (h2 : parseArrRest f r = .ok (vs, r2)) :
    parseArrItems (f + 1) (t :: ts) = .ok (v :: vs, r2) := by
  have hne : t ≠ Token.rbrack := by
    cases t <;> simp [isValueStart] at ht <;> simp
  simp [parseArrItems, hne, h1, h2, bind, Except.bind]

/-- Round-trip of the JSON printer/parser pair, for all five mutually
recursive printer/parser pairs simultaneously, by strong induction on
the size of the printed value. -/
theorem parse_stringify_aux : ∀ n : Nat,
    (∀ v : JsValue, sizeOf v ≤ n → ∀ ts, stringifyTokens v = .ok ts →
      ∀ f rest, ts.length ≤ f → parseValue f (ts ++ rest) = .ok (v, rest)) ∧
    (∀ xs : List JsValue, sizeOf xs ≤ n →
      (∀ ts, stringifyArr xs = .ok ts → ∀ f rest, ts.length ≤ f →
        parseArrItems f (ts ++ rest) = .ok (xs, rest)) ∧
      (∀ ts, stringifyArrRest xs = .ok ts → ∀ f rest, ts.length ≤ f →
        parseArrRest f (ts ++ rest) = .ok (xs, rest))) ∧
    (∀ fs : List (String × JsValue), sizeOf fs ≤ n →
      (∀ ts, stringifyObj fs = .ok ts → ∀ f rest, ts.length ≤ f →
        parseObjFields f (ts ++ rest) = .ok (fs, rest)) ∧
      (∀ ts, stringifyObjRest fs = .ok ts → ∀ f rest, ts.length ≤ f →
        parseObjRest f (ts ++ rest) = .ok (fs, rest))) := by
  intro n
  induction n using Nat.strong_induction_on with
  | _ n ih =>
    refine ⟨?_, ?_, ?_⟩
    · intro v hsz ts hok f rest hf
      cases v with
      | vnull =>
        simp [stringifyTokens] at hok
        subst hok
        cases f with
        | zero => simp at hf
        | succ f2 => simp [parseValue]
      | vbool b =>
        simp [stringifyTokens] at hok
        subst hok
        cases f with
        | zero => simp at hf
        | succ f2 => simp [parseValue]
      | vnum m =>
        simp [stringifyTokens] at hok
        subst hok
        cases f with
        | zero => simp at hf
        | succ f2 => simp [parseValue]
      | vstr s =>
        simp [stringifyTokens] at hok
        subst hok
        cases f with
        | zero => simp at hf
        | succ f2 => simp [parseValue]
      | varr xs =>
        cases h1 : stringifyArr xs with
        | error e => simp [stringifyTokens, h1, Except.map] at hok
        | ok ts0 =>
          simp [stringifyTokens, h1, Except.map] at hok
          subst hok
          cases f with
          | zero => simp at hf
          | succ f2 =>
            have hxs : sizeOf xs < n := by
              have h3 : sizeOf xs < sizeOf (JsValue.varr xs) := by simp
              omega
            have harr := ((ih (sizeOf xs) hxs).2.1 xs le_rfl).1 ts0 h1 f2 rest
              (by simp at hf; omega)
            simp [parseValue, harr, Except.map]
      | vobj fs =>
        cases h1 : stringifyObj fs with
        | error e => simp [stringifyTokens, h1, Except.map] at hok
        | ok ts0 =>
          simp [stringifyTokens, h1, Except.map] at hok
          subst hok
          cases f with
          | zero => simp at hf
          | succ f2 =>
            have hfs : sizeOf fs < n := by
              have h3 : sizeOf fs < sizeOf (JsValue.vobj fs) := by simp
              omega
            have hobj := ((ih (sizeOf fs) hfs).2.2 fs le_rfl).1 ts0 h1 f2 rest
              (by simp at hf; omega)
            simp [parseValue, hobj, Except.map]
      | vcyclic => simp [stringifyTokens] at hok
    · intro xs hsz
      refine ⟨?_, ?_⟩
      · intro ts hok f rest hf
        cases xs with
        | nil =>
          simp [stringifyArr] at hok
          subst hok
          cases f with
          | zero => simp at hf
          | succ f2 => simp [parseArrItems]
        | cons v vs =>
          cases h1 : stringifyTokens v with
          | error e => simp [stringifyArr, h1, bind, Except.bind] at hok
          | ok ts1 =>
            cases h2 : stringifyArrRest vs with
            | error e => simp [stringifyArr, h1, h2, bind, Except.bind] at hok
            | ok ts2 =>
              simp [stringifyArr, h1, h2, bind, Except.bind] at hok
              subst hok
              obtain ⟨t, ts1b, rfl, ht⟩ := stringifyTokens_head v ts1 h1
              have hlen2 := stringifyArrRest_length_pos vs ts2 h2
              cases f with
              | zero => simp at hf
              | succ f2 =>
                have hv : sizeOf v < n := by
                  have h3 : sizeOf v < sizeOf (v :: vs) := by simp; omega
                  omega
                have hvs : sizeOf vs < n := by
                  have h3 : sizeOf vs < sizeOf (v :: vs) := by simp
                  omega
                have hpv := (ih (sizeOf v) hv).1 v le_rfl _ h1 f2 (ts2 ++ rest)
                  (by simp at hf ⊢; omega)
                have hpr := ((ih (sizeOf vs) hvs).2.1 vs le_rfl).2 ts2 h2 f2 rest
                  (by simp at hf; omega)
                have hmain := parseArrItems_cons f2 t (ts1b ++ (ts2 ++ rest)) ht v
                  (ts2 ++ rest) (by simpa [List.append_assoc] using hpv) vs rest hpr
                simpa [List.append_assoc] using hmain
      · intro ts hok f rest hf
        cases xs with
        | nil =>
          simp [stringifyArrRest] at hok
          subst hok
          cases f with
          | zero => simp at hf
          | succ f2 => simp [parseArrRest]
        | cons v vs =>
          cases h1 : stringifyTokens v with
          | error e => simp [stringifyArrRest, h1, bind, Except.bind] at hok
          | ok ts1 =>
            cases h2 : stringifyArrRest vs with
            | error e => simp [stringifyArrRest, h1, h2, bind, Except.bind] at hok
            | ok ts2 =>
              simp [stringifyArrRest, h1, h2, bind, Except.bind] at hok
              subst hok
              cases f with
              | zero => simp at hf
              | succ f2 =>
                have hv : sizeOf v < n := by
                  have h3 : sizeOf v < sizeOf (v :: vs) := by simp; omega
                  omega
                have hvs : sizeOf vs < n := by
                  have h3 : sizeOf vs < sizeOf (v :: vs) := by simp
                  omega
                have hpv := (ih (sizeOf v) hv).1 v le_rfl _ h1 f2 (ts2 ++ rest)
                  (by simp at hf; omega)
                have hpr := ((ih (sizeOf vs) hvs).2.1 vs le_rfl).2 ts2 h2 f2 rest
                  (by simp at hf; omega)
                simp [parseArrRest, List.append_assoc, hpv, hpr, bind, Except.bind]
    · intro fs hsz
      refine ⟨?_, ?_⟩
      · intro ts hok f rest hf
        cases fs with
        | nil =>
          simp [stringifyObj] at hok
          subst hok
          cases f with
          | zero => simp at hf
          | succ f2 => simp [parseObjFields]
        | cons fld fs2 =>
          obtain ⟨k, v⟩ := fld
          cases h1 : stringifyTokens v with
          | error e => simp [stringifyObj, h1, bind, Except.bind] at hok
          | ok ts1 =>
            cases h2 : stringifyObjRest fs2 with
            | error e => simp [stringifyObj, h1, h2, bind, Except.bind] at hok
            | ok ts2 =>
              simp [stringifyObj, h1, h2, bind, Except.bind] at hok
              subst hok
              cases f with
              | zero => simp at hf
              | succ f2 =>
                have hv : sizeOf v < n := by
                  have h3 : sizeOf v < sizeOf ((k, v) :: fs2) := by simp only [List.cons.sizeOf_spec, Prod.mk.sizeOf_spec]; omega
                  omega
                have hfs2 : sizeOf fs2 < n := by
                  have h3 : sizeOf fs2 < sizeOf ((k, v) :: fs2) := by simp
                  omega
                have hpv := (ih (sizeOf v) hv).1 v le_rfl _ h1 f2 (ts2 ++ rest)
                  (by simp at hf; omega)
                have hpr := ((ih (sizeOf fs2) hfs2).2.2 fs2 le_rfl).2 ts2 h2 f2 rest
                  (by simp at hf; omega)
                simp [parseObjFields, List.append_assoc, hpv, hpr, bind, Except.bind]
      · intro ts hok f rest hf
        cases fs with
        | nil =>
          simp [stringifyObjRest] at hok
          subst hok
          cases f with
          | zero => simp at hf
          | succ f2 => simp [parseObjRest]
        | cons fld fs2 =>
          obtain ⟨k, v⟩ := fld
          cases h1 : stringifyTokens v with
          | error e => simp [stringifyObjRest, h1, bind, Except.bind] at hok
          | ok ts1 =>
            cases h2 : stringifyObjRest fs2 with
            | error e => simp [stringifyObjRest, h1, h2, bind, Except.bind] at hok
            | ok ts2 =>
              simp [stringifyObjRest, h1, h2, bind, Except.bind] at hok
              subst hok
              cases f with
              | zero => simp at hf
              | succ f2 =>
                have hv : sizeOf v < n := by
                  have h3 : sizeOf v < sizeOf ((k, v) :: fs2) := by simp only [List.cons.sizeOf_spec, Prod.mk.sizeOf_spec]; omega
                  omega
                have hfs2 : sizeOf fs2 < n := by
                  have h3 : sizeOf fs2 < sizeOf ((k, v) :: fs2) := by simp
                  omega
                have hpv := (ih (sizeOf v) hv).1 v le_rfl _ h1 f2 (ts2 ++ rest)
                  (by simp at hf; omega)
                have hpr := ((ih (sizeOf fs2) hfs2).2.2 fs2 le_rfl).2 ts2 h2 f2 rest
                  (by simp at hf; omega)
                simp [parseObjRest, List.append_assoc, hpv, hpr, bind, Except.bind]

/-- Round-trip of the JSON model: parsing back a serialized value yields
the value, structurally. -/
theorem jsonParse_stringifyTokens (v : JsValue) (ts : List Token)
    (h : stringifyTokens v = .ok ts) : jsonParse ts = .ok v := by
  have hp := (parse_stringify_aux (sizeOf v)).1 v le_rfl ts h (ts.length + 1) []
    (by omega)
  simp only [List.append_nil] at hp
  simp [jsonParse, hp]

/-- Serialization succeeds exactly on serializable values, for all five
printer functions simultaneously. -/
theorem stringify_isOk_aux : ∀ n : Nat,
    (∀ v : JsValue, sizeOf v ≤ n → (stringifyTokens v).isOk = serializable v) ∧
    (∀ xs : List JsValue, sizeOf xs ≤ n →
      (stringifyArr xs).isOk = serializableList xs ∧
      (stringifyArrRest xs).isOk = serializableList xs) ∧
    (∀ fs : List (String × JsValue), sizeOf fs ≤ n →
      (stringifyObj fs).isOk = serializableFields fs ∧
      (stringifyObjRest fs).isOk = serializableFields fs) := by
  intro n
  induction n using Nat.strong_induction_on with
  | _ n ih =>
    refine ⟨?_, ?_, ?_⟩
    · intro v hsz
      cases v with
      | vnull => simp [stringifyTokens, serializable, Except.isOk, Except.toBool]
      | vbool b => simp [stringifyTokens, serializable, Except.isOk, Except.toBool]
      | vnum m => simp [stringifyTokens, serializable, Except.isOk, Except.toBool]
      | vstr s => simp [stringifyTokens, serializable, Except.isOk, Except.toBool]
      | varr xs =>
        have hxs : sizeOf xs < n := by
          have h3 : sizeOf xs < sizeOf (JsValue.varr xs) := by simp
          omega
        have harr := ((ih (sizeOf xs) hxs).2.1 xs le_rfl).1
        cases h1 : stringifyArr xs with
        | error e =>
          simp [h1, Except.isOk, Except.toBool] at harr
          simp [stringifyTokens, h1, Except.map, serializable, harr,
            Except.isOk, Except.toBool]
        | ok ts0 =>
          simp [h1, Except.isOk, Except.toBool] at harr
          simp [stringifyTokens, h1, Except.map, serializable, harr,
            Except.isOk, Except.toBool]
      | vobj fs =>
        have hfs : sizeOf fs < n := by
          have h3 : sizeOf fs < sizeOf (JsValue.vobj fs) := by simp
          omega
        have hobj := ((ih (sizeOf fs) hfs).2.2 fs le_rfl).1
        cases h1 : stringifyObj fs with
        | error e =>
          simp [h1, Except.isOk, Except.toBool] at hobj
          simp [stringifyTokens, h1, Except.map, serializable, hobj,
            Except.isOk, Except.toBool]
        | ok ts0 =>
          simp [h1, Except.isOk, Except.toBool] at hobj
          simp [stringifyTokens, h1, Except.map, serializable, hobj,
            Except.isOk, Except.toBool]
      | vcyclic => simp [stringifyTokens, serializable, Except.isOk, Except.toBool]
    · intro xs hsz
      cases xs with
      | nil =>
        simp [stringifyArr, stringifyArrRest, serializableList,
          Except.isOk, Except.toBool]
      | cons v vs =>
        have hv : sizeOf v < n := by
          have h3 : sizeOf v < sizeOf (v :: vs) := by simp; omega
          omega
        have hvs : sizeOf vs < n := by
          have h3 : sizeOf vs < sizeOf (v :: vs) := by simp
          omega
        have hV := (ih (sizeOf v) hv).1 v le_rfl
        have hR := ((ih (sizeOf vs) hvs).2.1 vs le_rfl).2
        constructor
        · cases h1 : stringifyTokens v with
          | error e =>
            simp [h1, Except.isOk, Except.toBool] at hV
            simp [stringifyArr, h1, bind, Except.bind, serializableList, hV,
              Except.isOk, Except.toBool]
          | ok ts1 =>
            simp [h1, Except.isOk, Except.toBool] at hV
            cases h2 : stringifyArrRest vs with
            | error e =>
              simp [h2, Except.isOk, Except.toBool] at hR
              simp [stringifyArr, h1, h2, bind, Except.bind, serializableList,
                hV, hR, Except.isOk, Except.toBool]
            | ok ts2 =>
              simp [h2, Except.isOk, Except.toBool] at hR
              simp [stringifyArr, h1, h2, bind, Except.bind, serializableList,
                hV, hR, Except.isOk, Except.toBool]
        · cases h1 : stringifyTokens v with
          | error e =>
            simp [h1, Except.isOk, Except.toBool] at hV
            simp [stringifyArrRest, h1, bind, Except.bind, serializableList, hV,
              Except.isOk, Except.toBool]
          | ok ts1 =>
            simp [h1, Except.isOk, Except.toBool] at hV
            cases h2 : stringifyArrRest vs with
            | error e =>
              simp [h2, Except.isOk, Except.toBool] at hR
              simp [stringifyArrRest, h1, h2, bind, Except.bind, serializableList,
                hV, hR, Except.isOk, Except.toBool]
            | ok ts2 =>
              simp [h2, Except.isOk, Except.toBool] at hR
              simp [stringifyArrRest, h1, h2, bind, Except.bind, serializableList,
                hV, hR, Except.isOk, Except.toBool]
    · intro fs hsz
      cases fs with
      | nil =>
        simp [stringifyObj, stringifyObjRest, serializableFields,
          Except.isOk, Except.toBool]
      | cons fld fs2 =>
        obtain ⟨k, v⟩ := fld
        have hv : sizeOf v < n := by
          have h3 : sizeOf v < sizeOf ((k, v) :: fs2) := by simp only [List.cons.sizeOf_spec, Prod.mk.sizeOf_spec]; omega
          omega
        have hfs2 : sizeOf fs2 < n := by
          have h3 : sizeOf fs2 < sizeOf ((k, v) :: fs2) := by simp only [List.cons.sizeOf_spec, Prod.mk.sizeOf_spec]; omega
          omega
        have hV := (ih (sizeOf v) hv).1 v le_rfl
        have hR := ((ih (sizeOf fs2) hfs2).2.2 fs2 le_rfl).2
        constructor
        · cases h1 : stringifyTokens v with
          | error e =>
            simp [h1, Except.isOk, Except.toBool] at hV
            simp [stringifyObj, h1, bind, Except.bind, serializableFields, hV,
              Except.isOk, Except.toBool]
          | ok ts1 =>
            simp [h1, Except.isOk, Except.toBool] at hV
            cases h2 : stringifyObjRest fs2 with
            | error e =>
              simp [h2, Except.isOk, Except.toBool] at hR
              simp [stringifyObj, h1, h2, bind, Except.bind, serializableFields,
                hV, hR, Except.isOk, Except.toBool]
            | ok ts2 =>
              simp [h2, Except.isOk, Except.toBool] at hR
              simp [stringifyObj, h1, h2, bind, Except.bind, serializableFields,
                hV, hR, Except.isOk, Except.toBool]
        · cases h1 : stringifyTokens v with
          | error e =>
            simp [h1, Except.isOk, Except.toBool] at hV
            simp [stringifyObjRest, h1, bind, Except.bind, serializableFields, hV,
              Except.isOk, Except.toBool]
          | ok ts1 =>
            simp [h1, Except.isOk, Except.toBool] at hV
            cases h2 : stringifyObjRest fs2 with
            | error e =>
              simp [h2, Except.isOk, Except.toBool] at hR
              simp [stringifyObjRest, h1, h2, bind, Except.bind, serializableFields,
                hV, hR, Except.isOk, Except.toBool]
            | ok ts2 =>
              simp [h2, Except.isOk, Except.toBool] at hR
              simp [stringifyObjRest, h1, h2, bind, Except.bind, serializableFields,
                hV, hR, Except.isOk, Except.toBool]

/-- Serialization succeeds exactly on serializable values. -/
theorem stringifyTokens_isOk (v : JsValue) :
    (stringifyTokens v).isOk = serializable v :=
  (stringify_isOk_aux (sizeOf v)).1 v le_rfl

/-- A serializable value has a serialization. -/
theorem stringifyTokens_ok_of_serializable (v : JsValue)
    (h : serializable v = true) : ∃ ts, stringifyTokens v = .ok ts := by
  have h2 := stringifyTokens_isOk v
  rw [h] at h2
  cases h3 : stringifyTokens v with
  | error e => rw [h3] at h2; simp [Except.isOk, Except.toBool] at h2
  | ok ts => exact ⟨ts, rfl⟩

/-- An unserializable value has no serialization. -/
theorem stringifyTokens_error_of_not_serializable (v : JsValue)
    (h : serializable v = false) : ∃ e, stringifyTokens v = .error e := by
  have h2 := stringifyTokens_isOk v
  rw [h] at h2
  cases h3 : stringifyTokens v with
  | error e => exact ⟨e, rfl⟩
  | ok ts => rw [h3] at h2; simp [Except.isOk, Except.toBool] at h2

/-- C1: for every JSON-serializable payload `P`, decoding the result of
encoding `P` with the same shared secret key yields a value structurally
equal to `P`: `decryptData (encryptData P) = P`. -/
theorem encryptData_decryptData_roundtrip (env : Option String) (salt : Nat)
    (P : JsValue) (h : serializable P = true) :
    (encryptData env salt P).bind (decryptData env) = .ok P := by
  obtain ⟨ts, hts⟩ := stringifyTokens_ok_of_serializable P h
  simp [encryptData, encryptWith, decryptData, decryptWith, aesEncrypt, aesDecrypt,
    hts, Except.map, bind, Except.bind, jsonParse_stringifyTokens P ts hts]

/-- Witness for C1 at a concrete payload. -/
theorem encryptData_decryptData_roundtrip_witness :
    serializable (.vobj [("type", .vstr "offer"), ("sdp", .vstr "v=0")]) = true ∧
    (encryptData none 0 (.vobj [("type", .vstr "offer"), ("sdp", .vstr "v=0")])).bind
      (decryptData none) =
      .ok (.vobj [("type", .vstr "offer"), ("sdp", .vstr "v=0")]) :=
  ⟨rfl, encryptData_decryptData_roundtrip none 0 _ rfl⟩

/-- C2: a ciphertext produced by encoding under key `k1` fails to decode —
signals a decode error, never silently returning a value — under any
different key `k2`. -/
theorem decryptWith_key_mismatch (k1 k2 : String) (salt : Nat) (P : JsValue)
    (c : WireText) (hk : k1 ≠ k2) (henc : encryptWith k1 salt P = .ok c) :
    decryptWith k2 c = .error "Malformed UTF-8 data" := by
  cases hts : stringifyTokens P with
  | error e => simp [encryptWith, hts, Except.map] at henc
  | ok ts =>
    simp [encryptWith, hts, Except.map, aesEncrypt] at henc
    simp [← henc, decryptWith, aesDecrypt, bind, Except.bind, hk]

/-- Witness for C2 at concrete keys and payload. -/
theorem decryptWith_key_mismatch_witness :
    ("k1" : String) ≠ "k2" ∧
    encryptWith "k1" 0 .vnull = .ok (.cipher ⟨"k1", 0, [.tnull]⟩) ∧
    decryptWith "k2" (.cipher ⟨"k1", 0, [.tnull]⟩) = .error "Malformed UTF-8 data" :=
  ⟨by decide, rfl, decryptWith_key_mismatch "k1" "k2" 0 .vnull _ (by decide) rfl⟩

/-- C5: `encryptData` never fails on a JSON-serializable payload, and fails
on every payload containing values that cannot be serialized (circular
structures). -/
theorem encryptData_totality (env : Option String) (salt : Nat) (P : JsValue) :
    (serializable P = true → ∃ c, encryptData env salt P = .ok c) ∧
    (serializable P = false → ∃ e, encryptData env salt P = .error e) := by
  constructor
  · intro h
    obtain ⟨ts, hts⟩ := stringifyTokens_ok_of_serializable P h
    exact ⟨aesEncrypt (SECRET_KEY env) salt ts,
      by simp [encryptData, encryptWith, hts, Except.map]⟩
  · intro h
    obtain ⟨e, he⟩ := stringifyTokens_error_of_not_serializable P h
    exact ⟨e, by simp [encryptData, encryptWith, he, Except.map]⟩

/-- Witness for C5: encoding succeeds on a serializable payload and fails
on a payload containing a circular structure. -/
theorem encryptData_totality_witness :
    (∃ c, encryptData none 0 (.varr [.vnum 1]) = .ok c) ∧
    (∃ e, encryptData none 0 (.varr [.vcyclic]) = .error e) :=
  ⟨(encryptData_totality none 0 (.varr [.vnum 1])).1 rfl,
   (encryptData_totality none 0 (.varr [.vcyclic])).2 rfl⟩

/-- C8: the shared secret key is a single process-wide string, read from the
environment with the hardcoded fallback `default-secure-key-123` when the
environment value is absent (or falsy), and both `encryptData` and
`decryptData` use exactly this key. -/
theorem secretKey_shared :
    SECRET_KEY none = "default-secure-key-123" ∧
    (∀ s : String, SECRET_KEY (some s) =
      if s = "" then "default-secure-key-123" else s) ∧
    (∀ env salt d, encryptData env salt d = encryptWith (SECRET_KEY env) salt d) ∧
    (∀ env w, decryptData env w = decryptWith (SECRET_KEY env) w) :=
  ⟨rfl, fun _ => rfl, fun _ _ _ => rfl, fun _ _ => rfl⟩

/-- An encoded wire string is always a cipher blob, never plain text. -/
theorem encryptWith_ok_cipher (key : String) (salt : Nat) (d : JsValue)
    (w : WireText) (h : encryptWith key salt d = .ok w) :
    ∃ c, w = WireText.cipher c := by
  cases hts : stringifyTokens d with
  | error e => simp [encryptWith, hts, Except.map] at h
  | ok ts =>
    simp [encryptWith, hts, Except.map, aesEncrypt] at h
    exact ⟨_, h.symm⟩

/-- Every `onSignal` invocation produced by dispatching connection events
through the handlers `createPeer` registers carries the encryption of one
of the emitted signals. -/
theorem dispatchEvents_onSignal (key : String) (salt : Nat) :
    ∀ (evs : List PeerEvent) (calls : List CallbackCall),
      dispatchEvents key salt evs = .ok calls →
      ∀ w, CallbackCall.onSignal w ∈ calls →
        ∃ d, PeerEvent.signal d ∈ evs ∧ encryptWith key salt d = .ok w := by
  intro evs
  induction evs with
  | nil =>
    intro calls h w hw
    simp [dispatchEvents] at h
    subst h
    simp at hw
  | cons ev evs2 ihe =>
    intro calls h w hw
    cases h1 : dispatchEvent key salt ev with
    | error e => simp [dispatchEvents, h1, bind, Except.bind] at h
    | ok c =>
      cases h2 : dispatchEvents key salt evs2 with
      | error e => simp [dispatchEvents, h1, h2, bind, Except.bind] at h
      | ok cs =>
        simp [dispatchEvents, h1, h2, bind, Except.bind] at h
        subst h
        rcases List.mem_cons.mp hw with hc | hc
        · cases ev with
          | signal d =>
            cases he : encryptWith key salt d with
            | error e => simp [dispatchEvent, he, Except.map] at h1
            | ok w2 =>
              simp [dispatchEvent, he, Except.map] at h1
              subst h1
              cases hc
              exact ⟨d, List.mem_cons_self _ _, he⟩
          | stream s =>
            simp [dispatchEvent] at h1
            subst h1
            cases hc
          | error e =>
            simp [dispatchEvent] at h1
            subst h1
            cases hc
        · obtain ⟨d, hd, henc⟩ := ihe cs h2 w hc
          exact ⟨d, List.mem_cons_of_mem _ hd, henc⟩

/-- C10: the underlying connection is always constructed with trickle
disabled, regardless of the caller's configuration — `PeerConfig` offers no
way to enable it. -/
theorem createPeer_trickle_disabled (env : Option String) (salt : Nat)
    (cfg : PeerConfig) : ((createPeer env salt cfg).1).trickle = false := rfl

/-- C9: when the inbound ciphertext fails to decrypt or parse, the decode
error is thrown synchronously to the caller of `handlePeerSignal`; no
callback invocation — in particular no `onError` — is produced, that
callback being fed only by events of the underlying connection. -/
theorem handlePeerSignal_decode_error_sync (env : Option String) (salt : Nat)
    (p : SPeer) (w : WireText) (e : String) (h : decryptData env w = .error e) :
    handlePeerSignal env salt p w = .error e ∧
    ∀ p2 cs, handlePeerSignal env salt p w ≠ .ok (p2, cs) := by
  have h1 : handlePeerSignal env salt p w = .error e := by
    simp [handlePeerSignal, h, bind, Except.bind]
  exact ⟨h1, fun p2 cs hc => by rw [h1] at hc; exact Except.noConfusion hc⟩

/-- Witness for C9: a wire string that is not a valid ciphertext. -/
theorem handlePeerSignal_decode_error_sync_witness :
    handlePeerSignal none 0 ⟨true, false, ⟨0⟩, .signaling⟩ (.plain []) =
      .error "Malformed UTF-8 data" ∧
    ∀ p2 cs, handlePeerSignal none 0 ⟨true, false, ⟨0⟩, .signaling⟩ (.plain []) ≠
      .ok (p2, cs) :=
  handlePeerSignal_decode_error_sync none 0 _ _ _ rfl

/-- C4: `handlePeerSignal` first decodes the inbound string and only then
feeds the decoded value to the connection's signal operation: a decode
failure is propagated and the connection is never fed; on success the
decoded signal is applied and the resulting connection events dispatched. -/
theorem handlePeerSignal_decode_then_apply (env : Option String) (salt : Nat)
    (p : SPeer) (w : WireText) :
    (∀ e, decryptData env w = .error e → handlePeerSignal env salt p w = .error e) ∧
    (∀ sig, decryptData env w = .ok sig →
      handlePeerSignal env salt p w =
        (dispatchEvents (SECRET_KEY env) salt (spSignal p sig).2).map
          (fun cs => ((spSignal p sig).1, cs))) := by
  constructor
  · intro e he
    simp [handlePeerSignal, he, bind, Except.bind]
  · intro sig hsig
    cases hD : dispatchEvents (SECRET_KEY env) salt (spSignal p sig).2 with
    | error e => simp [handlePeerSignal, hsig, hD, bind, Except.bind, Except.map]
    | ok cs => simp [handlePeerSignal, hsig, hD, bind, Except.bind, Except.map]

/-- Witness for C4: a well-formed encrypted `null` signal is decoded and
applied. -/
theorem handlePeerSignal_decode_then_apply_witness :
    handlePeerSignal none 0 ⟨true, false, ⟨0⟩, .signaling⟩
      (.cipher ⟨"default-secure-key-123", 0, [.tnull]⟩) =
      (dispatchEvents (SECRET_KEY none) 0
        (spSignal ⟨true, false, ⟨0⟩, .signaling⟩ .vnull).2).map
        (fun cs => ((spSignal ⟨true, false, ⟨0⟩, .signaling⟩ .vnull).1, cs)) :=
  (handlePeerSignal_decode_then_apply none 0 _ _).2 .vnull rfl

/-- C3: every `onSignal` invocation of a session — at construction and when
handling the events caused by an inbound signal — receives the encrypted
text form (`encryptData`) of a signal the underlying connection emitted,
and never a plain (unencrypted) text. -/
theorem onSignal_only_encrypted (env : Option String) (salt : Nat)
    (cfg : PeerConfig) :
    (∀ calls, (createPeer env salt cfg).2 = .ok calls →
      ∀ w, CallbackCall.onSignal w ∈ calls →
        (∃ d, PeerEvent.signal d ∈ (spNew cfg.initiator false cfg.stream).2 ∧
          encryptWith (SECRET_KEY env) salt d = .ok w) ∧
        ∀ ts, w ≠ WireText.plain ts) ∧
    (∀ (p : SPeer) (enc : WireText) p2 calls,
      handlePeerSignal env salt p enc = .ok (p2, calls) →
      ∀ w, CallbackCall.onSignal w ∈ calls →
        (∃ sig d, decryptData env enc = .ok sig ∧
          PeerEvent.signal d ∈ (spSignal p sig).2 ∧
          encryptWith (SECRET_KEY env) salt d = .ok w) ∧
        ∀ ts, w ≠ WireText.plain ts) := by
  constructor
  · intro calls h w hw
    have h2 : dispatchEvents (SECRET_KEY env) salt
        (spNew cfg.initiator false cfg.stream).2 = .ok calls := h
    obtain ⟨d, hd, henc⟩ := dispatchEvents_onSignal (SECRET_KEY env) salt _ calls h2 w hw
    refine ⟨⟨d, hd, henc⟩, ?_⟩
    obtain ⟨c, rfl⟩ := encryptWith_ok_cipher _ _ _ _ henc
    intro ts hts
    exact WireText.noConfusion hts
  · intro p enc p2 calls h w hw
    cases hd : decryptData env enc with
    | error e => simp [handlePeerSignal, hd, bind, Except.bind] at h
    | ok sig =>
      cases hD : dispatchEvents (SECRET_KEY env) salt (spSignal p sig).2 with
      | error e => simp [handlePeerSignal, hd, hD, bind, Except.bind] at h
      | ok cs =>
        simp [handlePeerSignal, hd, hD, bind, Except.bind] at h
        obtain ⟨hp2, hcalls⟩ := h
        subst hcalls
        obtain ⟨d, hmem, henc⟩ :=
          dispatchEvents_onSignal (SECRET_KEY env) salt _ cs hD w hw
        refine ⟨⟨sig, d, rfl, hmem, henc⟩, ?_⟩
        obtain ⟨c, rfl⟩ := encryptWith_ok_cipher _ _ _ _ henc
        intro ts hts
        exact WireText.noConfusion hts

/-- Witness for C3: the initiator's construction-time `onSignal` call
receives the encryption of the emitted offer, which is not plain text. -/
theorem onSignal_only_encrypted_witness :
    (∃ d, PeerEvent.signal d ∈ (spNew true false ⟨0⟩).2 ∧
      encryptWith (SECRET_KEY none) 0 d = .ok (WireText.cipher
        ⟨"default-secure-key-123", 0,
         [.lbrace, .tstr "type", .colon, .tstr "offer", .comma, .tstr "stream",
          .colon, .tnum 0, .rbrace]⟩)) ∧
    ∀ ts, WireText.cipher ⟨"default-secure-key-123", 0,
        [.lbrace, .tstr "type", .colon, .tstr "offer", .comma, .tstr "stream",
         .colon, .tnum 0, .rbrace]⟩ ≠ WireText.plain ts :=
  (onSignal_only_encrypted none 0 ⟨true, ⟨0⟩⟩).1
    [.onSignal (WireText.cipher ⟨"default-secure-key-123", 0,
      [.lbrace, .tstr "type", .colon, .tstr "offer", .comma, .tstr "stream",
       .colon, .tnum 0, .rbrace]⟩)] rfl
    (WireText.cipher ⟨"default-secure-key-123", 0,
      [.lbrace, .tstr "type", .colon, .tstr "offer", .comma, .tstr "stream",
       .colon, .tnum 0, .rbrace]⟩) (by simp)

/-- C6: a session constructed with `initiator = true` produces an outbound
signal at construction, before any remote signal is applied; a session with
`initiator = false` produces none at construction — and, the model emitting
events only at construction and inside `handlePeerSignal`, none until a
remote signal is fed in. -/
theorem createPeer_initiator_asymmetry (env : Option String) (salt : Nat)
    (s : MediaStream) :
    (∃ calls, (createPeer env salt ⟨true, s⟩).2 = .ok calls ∧
      1 ≤ countOnSignal calls) ∧
    (∀ calls, (createPeer env salt ⟨false, s⟩).2 = .ok calls →
      countOnSignal calls = 0) := by
  constructor
  · refine ⟨[.onSignal (WireText.cipher ⟨SECRET_KEY env, salt,
      [.lbrace, .tstr "type", .colon, .tstr "offer", .comma, .tstr "stream",
       .colon, .tnum (s.id : Int), .rbrace]⟩)], ?_, ?_⟩
    · rfl
    · simp [countOnSignal]
  · intro calls h
    have h2 : Except.ok ([] : List CallbackCall) = .ok calls := h
    simp at h2
    subst h2
    rfl

/-- Witness for C6: a concrete responder session makes no `onSignal` call
at construction. -/
theorem createPeer_initiator_asymmetry_witness :
    (createPeer none 0 ⟨false, ⟨0⟩⟩).2 = .ok [] ∧ countOnSignal [] = 0 :=
  ⟨rfl, (createPeer_initiator_asymmetry none 0 ⟨0⟩).2 [] rfl⟩

/-- Number of `stream` events in a batch of connection events. -/
def countStreamEvents (evs : List PeerEvent) : Nat :=
  evs.countP (fun ev => match ev with | .stream _ => true | _ => false)

/-- Dispatching preserves the stream count: the handlers turn each `stream`
event into exactly one `onStream` call and nothing else into one. -/
theorem dispatchEvents_stream_count (key : String) (salt : Nat) :
    ∀ (evs : List PeerEvent) (calls : List CallbackCall),
      dispatchEvents key salt evs = .ok calls →
      countOnStream calls = countStreamEvents evs := by
  intro evs
  induction evs with
  | nil =>
    intro calls h
    simp [dispatchEvents] at h
    subst h
    rfl
  | cons ev evs2 ihe =>
    intro calls h
    cases h1 : dispatchEvent key salt ev with
    | error e => simp [dispatchEvents, h1, bind, Except.bind] at h
    | ok c =>
      cases h2 : dispatchEvents key salt evs2 with
      | error e => simp [dispatchEvents, h1, h2, bind, Except.bind] at h
      | ok cs =>
        simp [dispatchEvents, h1, h2, bind, Except.bind] at h
        subst h
        have ih2 := ihe cs h2
        cases ev with
        | signal d =>
          cases he : encryptWith key salt d with
          | error e => simp [dispatchEvent, he, Except.map] at h1
          | ok w2 =>
            simp [dispatchEvent, he, Except.map] at h1
            subst h1
            simp [countOnStream, countStreamEvents, List.countP_cons] at ih2 ⊢
            exact ih2
        | stream s =>
          simp [dispatchEvent] at h1
          subst h1
          simp [countOnStream, countStreamEvents, List.countP_cons] at ih2 ⊢
          exact ih2
        | error e =>
          simp [dispatchEvent] at h1
          subst h1
          simp [countOnStream, countStreamEvents, List.countP_cons] at ih2 ⊢
          exact ih2

/-- Applying one signal changes the connection's stream-event count by
exactly the phase transition: one `stream` event is emitted exactly when
the connection moves from `signaling` to `connected`, and none afterwards. -/
theorem spSignal_stream_delta (p : SPeer) (sig : JsValue) :
    countStreamEvents (spSignal p sig).2 +
      (if p.phase = SPhase.connected then 1 else 0) =
      (if (spSignal p sig).1.phase = SPhase.connected then 1 else 0) := by
  rcases p with ⟨ini, tri, ls, ph⟩
  cases ph with
  | connected => simp [spSignal, countStreamEvents]
  | signaling =>
    cases hds : decodeSignal sig with
    | none => simp [spSignal, hds, countStreamEvents]
    | some pr =>
      obtain ⟨isOffer, remote⟩ := pr
      cases ini <;> cases isOffer <;> simp [spSignal, hds, countStreamEvents]

/-- One `handlePeerSignal` call adds `onStream` invocations exactly for the
phase transition of the underlying connection. -/
theorem handlePeerSignal_stream_delta (env : Option String) (salt : Nat)
    (p : SPeer) (w : WireText) (p2 : SPeer) (cs : List CallbackCall)
    (h : handlePeerSignal env salt p w = .ok (p2, cs)) :
    countOnStream cs + (if p.phase = SPhase.connected then 1 else 0) =
      (if p2.phase = SPhase.connected then 1 else 0) := by
  cases hd : decryptData env w with
  | error e => simp [handlePeerSignal, hd, bind, Except.bind] at h
  | ok sig =>
    cases hD : dispatchEvents (SECRET_KEY env) salt (spSignal p sig).2 with
    | error e => simp [handlePeerSignal, hd, hD, bind, Except.bind] at h
    | ok cs2 =>
      simp [handlePeerSignal, hd, hD, bind, Except.bind] at h
      obtain ⟨hp2, hcs⟩ := h
      subst hp2
      subst hcs
      rw [dispatchEvents_stream_count (SECRET_KEY env) salt _ _ hD]
      exact spSignal_stream_delta p sig

/-- At construction a session has made no `onStream` call and its
connection is still signaling. -/
theorem createPeer_stream_init (env : Option String) (salt : Nat)
    (cfg : PeerConfig) (calls : List CallbackCall)
    (h : (createPeer env salt cfg).2 = .ok calls) :
    countOnStream calls = 0 ∧ (createPeer env salt cfg).1.phase = .signaling := by
  refine ⟨?_, rfl⟩
  have h2 : dispatchEvents (SECRET_KEY env) salt
      (spNew cfg.initiator false cfg.stream).2 = .ok calls := h
  rw [dispatchEvents_stream_count (SECRET_KEY env) salt _ _ h2]
  rcases cfg with ⟨ini, s⟩
  cases ini <;> simp [spNew, countStreamEvents]

/-- Folding inbound signals preserves the stream-count invariant: the
number of `onStream` calls made so far is one exactly when the connection
has reached `connected`, zero otherwise. -/
theorem foldl_stream_inv (env : Option String) (salt : Nat) :
    ∀ (incoming : List WireText) (st : SPeer × List CallbackCall)
      (p2 : SPeer) (calls2 : List CallbackCall),
      List.foldlM (sessionStep env salt) st incoming = .ok (p2, calls2) →
      countOnStream st.2 = (if st.1.phase = SPhase.connected then 1 else 0) →
      countOnStream calls2 = (if p2.phase = SPhase.connected then 1 else 0) := by
  intro incoming
  induction incoming with
  | nil =>
    intro st p2 calls2 h hinv
    simp [List.foldlM, pure, Except.pure] at h
    subst h
    exact hinv
  | cons w ws ihw =>
    intro st p2 calls2 h hinv
    rw [List.foldlM_cons] at h
    cases hs : sessionStep env salt st w with
    | error e => rw [hs] at h; simp [bind, Except.bind] at h
    | ok st2 =>
      rw [hs] at h
      simp only [bind, Except.bind] at h
      cases hh : handlePeerSignal env salt st.1 w with
      | error e => simp [sessionStep, hh, bind, Except.bind] at hs
      | ok r =>
        obtain ⟨rp, rc⟩ := r
        simp [sessionStep, hh, bind, Except.bind] at hs
        subst hs
        have hd := handlePeerSignal_stream_delta env salt st.1 w rp rc hh
        refine ihw ((rp, st.2 ++ rc)) p2 calls2 h ?_
        have happ : countOnStream (st.2 ++ rc) =
            countOnStream st.2 + countOnStream rc := List.countP_append _ _ _
        rw [happ, hinv]
        cases hph : st.1.phase <;> cases hph2 : rp.phase <;>
          simp [hph, hph2] at hd ⊢ <;> omega

/-- C7: over any session run, the `onStream` callback has been invoked
exactly once when the connection is established, and zero times otherwise —
never twice for the same session. -/
theorem runSession_stream_once (env : Option String) (salt : Nat)
    (cfg : PeerConfig) (incoming : List WireText) (p : SPeer)
    (calls : List CallbackCall)
    (h : runSession env salt cfg incoming = .ok (p, calls)) :
    countOnStream calls = (if p.phase = SPhase.connected then 1 else 0) := by
  cases hI : (createPeer env salt cfg).2 with
  | error e => simp [runSession, hI, bind, Except.bind] at h
  | ok initCalls =>
    simp [runSession, hI, bind, Except.bind] at h
    obtain ⟨h0, hph⟩ := createPeer_stream_init env salt cfg initCalls hI
    exact foldl_stream_inv env salt incoming ((createPeer env salt cfg).1, initCalls)
      p calls h (by rw [h0, hph]; simp)

/-- Witness for C7: a responder session fed one encrypted offer completes
the handshake and makes exactly one `onStream` call. -/
theorem runSession_stream_once_witness :
    runSession none 0 ⟨false, ⟨5⟩⟩
      [.cipher ⟨"default-secure-key-123", 0,
        [.lbrace, .tstr "type", .colon, .tstr "offer", .comma, .tstr "stream",
         .colon, .tnum 7, .rbrace]⟩] =
      .ok (⟨false, false, ⟨5⟩, .connected⟩,
        [.onSignal (.cipher ⟨"default-secure-key-123", 0,
          [.lbrace, .tstr "type", .colon, .tstr "answer", .comma, .tstr "stream",
           .colon, .tnum 5, .rbrace]⟩),
         .onStream ⟨7⟩]) ∧
    countOnStream
      [.onSignal (.cipher ⟨"default-secure-key-123", 0,
        [.lbrace, .tstr "type", .colon, .tstr "answer", .comma, .tstr "stream",
         .colon, .tnum 5, .rbrace]⟩),
       .onStream ⟨7⟩] = 1 := by
  have h : runSession none 0 ⟨false, ⟨5⟩⟩
      [.cipher ⟨"default-secure-key-123", 0,
        [.lbrace, .tstr "type", .colon, .tstr "offer", .comma, .tstr "stream",
         .colon, .tnum 7, .rbrace]⟩] =
      .ok (⟨false, false, ⟨5⟩, .connected⟩,
        [.onSignal (.cipher ⟨"default-secure-key-123", 0,
          [.lbrace, .tstr "type", .colon, .tstr "answer", .comma, .tstr "stream",
           .colon, .tnum 5, .rbrace]⟩),
         .onStream ⟨7⟩]) := rfl
  exact ⟨h, runSession_stream_once none 0 ⟨false, ⟨5⟩⟩ _ _ _ h⟩
